import Mathlib

/-!
Verification development for the fwd_container repository: a LIFO `Stack` and a
FIFO `Queue` over singly linked node chains, unified by a polymorphic
forward-iteration interface (`fwd_container.h`, `stack.h`/`stack.ipp`,
`queue.h`/`queue.ipp`, `Node.h`).

The Stack is embedded at the level of its element chain (`topNode` walks a
`List`), which is faithful because no claim about the Stack depends on node
addresses.  The Queue is embedded with an explicit heap of addressed nodes,
because its invariants speak about the `rearNode` pointer and the successor
link of the back node.  Iterator cursors and handles are embedded as tagged
values mirroring the `stack_iterator` / `queue_iterator` classes and the
value-semantic `iterator` / `const_iterator` wrappers.

C++ exceptions become explicit error results; `std::bad_alloc` is modelled by
an allocation budget where a claim depends on allocation failure; the stream
boundary (`operator>>` / `operator<<` for the element type, which the spec
lists as external collaborators) is modelled at the level of
whitespace-separated tokens.
-/

/-- Error kinds of the library, from §7 of the specification: C++ throws
`std::runtime_error` with distinguishing messages and `std::bad_cast`. -/
inductive CErr where
  | emptyContainer
  | resourceExhaustion
  | typeMismatch
  | streamFault
  | parseFailure
deriving DecidableEq, Repr

/-- Outcome of an operation that returns no value: either a new container
state, or an error together with the container state the operation leaves
behind when it throws. -/
inductive StOut (σ : Type _) where
  | ok (st : σ)
  | err (e : CErr) (st : σ)
deriving DecidableEq, Repr

/-- Outcome of an operation returning a value (such as `pop`): the value and
the new state, or an error with the state left behind by the throw. -/
inductive ValOut (α σ : Type _) where
  | ok (v : α) (st : σ)
  | err (e : CErr) (st : σ)
deriving DecidableEq, Repr

/-- Outcome of a value-returning accessor that does not change state. -/
inductive Res (α : Type _) where
  | ok (v : α)
  | err (e : CErr)
deriving DecidableEq, Repr

/-- One unit of input on a text stream: a whitespace-delimited token, or a
stream fault (`is.good()` turning false other than at end of input). -/
inductive Tok where
  | val (s : String)
  | fault
deriving DecidableEq, Repr

/-! ## Stack: list-level embedding of stack.ipp

`chain` is the node chain hanging off `topNode`, head = top; `stackSize` is
the separate bookkeeping counter the code maintains. -/

/-- State of `Stack<T>`: the chain from `topNode` (head of the list is the
top) and the `stackSize` counter. -/
structure Stack (α : Type _) where
  chain : List α
  stackSize : Nat
deriving DecidableEq, Repr

/-- Default constructor `Stack() : topNode(nullptr), stackSize(0)`. -/
def Stack.mkEmpty {α : Type _} : Stack α := ⟨[], 0⟩

/-- `Stack::is_empty`: `topNode == nullptr`. -/
def Stack.is_empty {α : Type _} (s : Stack α) : Bool := s.chain.isEmpty

/-- `Stack::size`: returns the `stackSize` field. -/
def Stack.size {α : Type _} (s : Stack α) : Nat := s.stackSize

/-- `Stack::push`: link a new node above `topNode`, increment `stackSize`.
The model assumes the allocation succeeds (`push` with an allocation budget is
not needed by any claim). -/
def Stack.push {α : Type _} (s : Stack α) (v : α) : Stack α :=
  ⟨v :: s.chain, s.stackSize + 1⟩

/-- `Stack::pop`: throw `EmptyContainer` when `is_empty()`, before any
mutation; otherwise unlink the top node, decrement `stackSize`, return the
moved-out value. -/
def Stack.pop {α : Type _} (s : Stack α) : ValOut α (Stack α) :=
  match s.chain with
  | [] => .err .emptyContainer s
  | t :: rest => .ok t ⟨rest, s.stackSize - 1⟩

/-- `Stack::get_front`: reference to the top value, `EmptyContainer` when
empty. -/
def Stack.get_front {α : Type _} (s : Stack α) : Res α :=
  match s.chain with
  | [] => .err .emptyContainer
  | t :: _ => .ok t

/-- `Stack::clear`: pops until empty.  On the list model the loop removes the
whole chain; the size counter ends at `stackSize - chain.length` by repeated
`--stackSize` (equal to 0 on well-formed stacks). -/
def Stack.clear {α : Type _} (s : Stack α) : Stack α :=
  ⟨[], s.stackSize - s.chain.length⟩

/-- Allocation-budgeted clone of a chain, one `new Node<T>` per element,
top to bottom: `none` models `std::bad_alloc` partway through. -/
def copyChainAux {α : Type _} : List α → Nat → Option (List α)
  | [], _ => some []
  | _ :: _, 0 => none
  | x :: xs, b + 1 => (copyChainAux xs b).map (x :: ·)

/-- Copy constructor `Stack(const Stack&)` with an allocation budget.  The
member initialiser list runs first: `topNode(nullptr), stackSize(other.stackSize)`.
On `bad_alloc` the catch block deletes the partially built chain (so no node
stays linked) and throws `ResourceExhaustion`; the `stackSize` field is not
reset there, so the state at the throw carries `other.stackSize`. -/
def Stack.copyCtor {α : Type _} (other : Stack α) (budget : Nat) : StOut (Stack α) :=
  if other.chain.isEmpty then
    .ok ⟨[], other.stackSize⟩
  else
    match copyChainAux other.chain budget with
    | some newChain => .ok ⟨newChain, other.stackSize⟩
    | none => .err .resourceExhaustion ⟨[], other.stackSize⟩

/-- Copy assignment `Stack::operator=(const Stack&)`: clear, rebuild the chain
top to bottom, then set `stackSize = other.stackSize`.  Allocation is assumed
to succeed (no claim depends on its failure path). -/
def Stack.copyAssign {α : Type _} (tgt other : Stack α) : Stack α :=
  let _ := tgt.clear
  ⟨other.chain, other.stackSize⟩

/-- Move constructor `Stack(Stack&&)`: steal the chain and counter, reset the
source to the empty state.  Returns (new object, source afterwards). -/
def Stack.moveCtor {α : Type _} (other : Stack α) : Stack α × Stack α :=
  (⟨other.chain, other.stackSize⟩, ⟨[], 0⟩)

/-- Iteration order of the Stack (`begin()` starts at `topNode` and follows
`next`): top to bottom, i.e. the chain itself. -/
def Stack.toList {α : Type _} (s : Stack α) : List α := s.chain

/-- `Stack::print`: render the elements in iteration order, space separated.
Modelled at token level (one rendered token per element, in order); the single
ASCII space joining is the stream's business. -/
def Stack.print {α : Type _} (f : α → String) (s : Stack α) : List String :=
  s.chain.map f

/-- The extraction/push loop of `Stack::read`: for each token, parse it as `T`
and `push` it; an unparsable token or a stream fault raises out of the loop. -/
def Stack.readLoop {α : Type _} (p : String → Option α) :
    Stack α → List Tok → StOut (Stack α)
  | s, [] => .ok s
  | s, Tok.fault :: _ => .err .streamFault s
  | s, Tok.val t :: rest =>
    match p t with
    | none => .err .parseFailure s
    | some v => Stack.readLoop p (s.push v) rest

/-- `Stack::read`: take a backup copy, run the extraction loop, and on any
failure restore the backup (`*this = std::move(backup)`) before rethrowing.
The backup copy of the list-level state is the state itself. -/
def Stack.read {α : Type _} (p : String → Option α) (s : Stack α)
    (toks : List Tok) : StOut (Stack α) :=
  match Stack.readLoop p s toks with
  | .ok s2 => .ok s2
  | .err e _ => .err e s

/-- Sequence of pushes. -/
def Stack.pushSeq {α : Type _} (s : Stack α) (vs : List α) : Stack α :=
  vs.foldl Stack.push s

/-- Repeatedly pop with the given fuel, stopping at the first failure. -/
def Stack.popAllAux {α : Type _} : Nat → Stack α → List α
  | 0, _ => []
  | n + 1, s =>
    match Stack.pop s with
    | .ok v s2 => v :: Stack.popAllAux n s2
    | .err _ _ => []

/-- Pop every element of the stack (the loop runs `size()` times). -/
def Stack.popAll {α : Type _} (s : Stack α) : List α :=
  Stack.popAllAux s.stackSize s

/-- Pop `k` times; a failing pop (empty container) leaves the state as it
was. -/
def Stack.popK {α : Type _} : Nat → Stack α → Stack α
  | 0, s => s
  | k + 1, s =>
    match Stack.pop s with
    | .ok _ s2 => Stack.popK k s2
    | .err _ s2 => Stack.popK k s2

/-- Well-formedness of a Stack state: the counter agrees with the chain (the
spec's "the chain length always equals the container's reported size"). -/
def Stack.WF {α : Type _} (s : Stack α) : Prop := s.stackSize = s.chain.length

/-! ## Queue: heap-level embedding of queue.ipp

Nodes live in an addressed heap; `frontNode` / `rearNode` are the two
pointers of the class, `queueSize` the counter, and `nextAddr` the allocator
(every `new` yields a fresh address). -/

/-- `Node<T>` as allocated by the Queue: payload and successor address. -/
structure QNode (α : Type _) where
  data : α
  next : Option Nat
deriving DecidableEq, Repr

/-- State of `Queue<T>`. -/
structure Queue (α : Type _) where
  heap : List (Nat × QNode α)
  frontNode : Option Nat
  rearNode : Option Nat
  queueSize : Nat
  nextAddr : Nat
deriving DecidableEq, Repr

/-- Dereference an address in the heap. -/
def heapFind {α : Type _} (heap : List (Nat × QNode α)) (a : Nat) : Option (QNode α) :=
  (heap.find? (fun pr => pr.1 == a)).map Prod.snd

/-- Re-point the `next` field of the node at address `a`
(`rearNode->next = newNode`). -/
def setNext {α : Type _} (heap : List (Nat × QNode α)) (a : Nat) (nx : Option Nat) :
    List (Nat × QNode α) :=
  heap.map (fun pr => if pr.1 = a then (pr.1, ⟨pr.2.data, nx⟩) else pr)

/-- `delete` the node at address `a`. -/
def eraseNode {α : Type _} (heap : List (Nat × QNode α)) (a : Nat) :
    List (Nat × QNode α) :=
  heap.filter (fun pr => decide (pr.1 ≠ a))

/-- Default constructor `Queue() : frontNode(nullptr), rearNode(nullptr), queueSize(0)`. -/
def Queue.mkEmpty {α : Type _} : Queue α :=
  ⟨[], none, none, 0, 0⟩

/-- `Queue::is_empty`: `frontNode == nullptr`. -/
def Queue.is_empty {α : Type _} (q : Queue α) : Bool := q.frontNode.isNone

/-- `Queue::size`: returns the `queueSize` field. -/
def Queue.size {α : Type _} (q : Queue α) : Nat := q.queueSize

/-- `Queue::push`: allocate a node with null successor; if the queue is empty
set `frontNode = rearNode = newNode`, otherwise link `rearNode->next` to it
and advance `rearNode`; increment the counter. -/
def Queue.push {α : Type _} (q : Queue α) (v : α) : Queue α :=
  let a := q.nextAddr
  let heap1 := (a, (⟨v, none⟩ : QNode α)) :: q.heap
  if q.frontNode.isNone then
    ⟨heap1, some a, some a, q.queueSize + 1, a + 1⟩
  else
    match q.rearNode with
    | some r =>
      ⟨setNext heap1 r (some a), q.frontNode, some a, q.queueSize + 1, a + 1⟩
    | none =>
      -- the C++ dereferences a null rearNode here; unreachable on well-formed queues
      ⟨heap1, q.frontNode, some a, q.queueSize + 1, a + 1⟩

/-- `Queue::pop`: throw `EmptyContainer` when `frontNode == nullptr`, before
any mutation; otherwise unlink the front node, clear `rearNode` when the chain
became empty, decrement the counter, delete the node, return its value. -/
def Queue.pop {α : Type _} (q : Queue α) : ValOut α (Queue α) :=
  match q.frontNode with
  | none => .err .emptyContainer q
  | some f =>
    match heapFind q.heap f with
    | none =>
      -- the C++ dereferences a dangling frontNode here; unreachable on well-formed queues
      .err .emptyContainer q
    | some nd =>
      .ok nd.data
        ⟨eraseNode q.heap f, nd.next,
         if nd.next.isNone then none else q.rearNode,
         q.queueSize - 1, q.nextAddr⟩

/-- `Queue::get_front`: reference to the front value, `EmptyContainer` when
empty. -/
def Queue.get_front {α : Type _} (q : Queue α) : Res α :=
  match q.frontNode with
  | none => .err .emptyContainer
  | some f =>
    match heapFind q.heap f with
    | none => .err .emptyContainer  -- dangling front; unreachable on well-formed queues
    | some nd => .ok nd.data

/-- Walk the chain from an address, following `next` links, reading off the
stored values; the fuel bounds the walk (the iteration of a well-formed queue
of size `n` visits exactly `n` nodes before reaching the null cursor). -/
def walkValues {α : Type _} (heap : List (Nat × QNode α)) :
    Option Nat → Nat → List α
  | _, 0 => []
  | none, _ + 1 => []
  | some a, fuel + 1 =>
    match heapFind heap a with
    | none => []
    | some nd => nd.data :: walkValues heap nd.next fuel

/-- Iteration order of the Queue (`begin()` starts at `frontNode` and follows
`next` links): front to back. -/
def Queue.toList {α : Type _} (q : Queue α) : List α :=
  walkValues q.heap q.frontNode q.queueSize

/-- The pop-until-empty loop of `Queue::clear`, with fuel (the loop of a
well-formed queue runs `queueSize` times). -/
def Queue.clearAux {α : Type _} : Nat → Queue α → Queue α
  | 0, q => q
  | n + 1, q =>
    if q.is_empty then q
    else
      match Queue.pop q with
      | .ok _ q2 => Queue.clearAux n q2
      | .err _ q2 => q2

/-- `Queue::clear`: pops until empty. -/
def Queue.clear {α : Type _} (q : Queue α) : Queue α :=
  Queue.clearAux q.queueSize q

/-- Copy constructor `Queue(const Queue&)`: start from the default-constructed
state and `push` each source element walking the source chain front to back.
(On allocation failure the catch block calls `clear()` before throwing, so a
failed copy is the empty state; no claim needs the budgeted variant.) -/
def Queue.copyCtor {α : Type _} (other : Queue α) : Queue α :=
  (Queue.toList other).foldl Queue.push Queue.mkEmpty

/-- Move constructor `Queue(Queue&&)`: steal the three fields, reset the
source.  Returns (new object, source afterwards). -/
def Queue.moveCtor {α : Type _} (other : Queue α) : Queue α × Queue α :=
  (⟨other.heap, other.frontNode, other.rearNode, other.queueSize, other.nextAddr⟩,
   Queue.mkEmpty)

/-- Copy assignment `Queue::operator=(const Queue&)`: `clear()` then push each
source element front to back. -/
def Queue.copyAssign {α : Type _} (tgt other : Queue α) : Queue α :=
  (Queue.toList other).foldl Queue.push (Queue.clear tgt)

/-- `Queue::print`: elements in iteration order (front to back), one token
each. -/
def Queue.print {α : Type _} (f : α → String) (q : Queue α) : List String :=
  (Queue.toList q).map f

/-- The extraction/push loop of `Queue::read`. -/
def Queue.readLoop {α : Type _} (p : String → Option α) :
    Queue α → List Tok → StOut (Queue α)
  | q, [] => .ok q
  | q, Tok.fault :: _ => .err .streamFault q
  | q, Tok.val t :: rest =>
    match p t with
    | none => .err .parseFailure q
    | some v => Queue.readLoop p (q.push v) rest

/-- `Queue::read`: take a backup copy (`Queue<T> backup = *this`, a deep copy
with freshly allocated nodes), run the loop, and on failure restore the backup
(`*this = std::move(backup)`) before rethrowing. -/
def Queue.read {α : Type _} (p : String → Option α) (q : Queue α)
    (toks : List Tok) : StOut (Queue α) :=
  match Queue.readLoop p q toks with
  | .ok q2 => .ok q2
  | .err e _ => .err e (Queue.copyCtor q)

/-- Sequence of pushes. -/
def Queue.pushSeq {α : Type _} (q : Queue α) (vs : List α) : Queue α :=
  vs.foldl Queue.push q

/-- Repeatedly pop with the given fuel, stopping at the first failure. -/
def Queue.popAllAux {α : Type _} : Nat → Queue α → List α
  | 0, _ => []
  | n + 1, q =>
    match Queue.pop q with
    | .ok v q2 => v :: Queue.popAllAux n q2
    | .err _ _ => []

/-- Pop every element of the queue (the loop runs `size()` times). -/
def Queue.popAll {α : Type _} (q : Queue α) : List α :=
  Queue.popAllAux q.queueSize q

/-- Pop `k` times; a failing pop (empty container) leaves the state as it
was. -/
def Queue.popK {α : Type _} : Nat → Queue α → Queue α
  | 0, q => q
  | k + 1, q =>
    match Queue.pop q with
    | .ok _ q2 => Queue.popK k q2
    | .err _ q2 => Queue.popK k q2

/-! ### Queue representation predicate

`Queue.rep q l` states that `q` is exactly the heap representation of the
front-to-back chain `l` of (address, value) pairs.  Pushes allocate at the
head of the heap list, so the heap reads back to front. -/

/-- The node entries of a front-to-back chain: each node's successor is the
address of the next chain entry, the last node's successor is null. -/
def chainNodes {α : Type _} : List (Nat × α) → List (Nat × QNode α)
  | [] => []
  | (a, v) :: rest => (a, ⟨v, (rest.head?).map Prod.fst⟩) :: chainNodes rest

/-- Representation predicate tying a Queue state to its abstract chain. -/
def Queue.rep {α : Type _} (q : Queue α) (l : List (Nat × α)) : Prop :=
  q.heap = (chainNodes l).reverse ∧
  q.frontNode = (l.head?).map Prod.fst ∧
  q.rearNode = (l.getLast?).map Prod.fst ∧
  q.queueSize = l.length ∧
  (l.map Prod.fst).Nodup ∧
  (∀ pr ∈ l, pr.1 < q.nextAddr)

/-- Well-formedness of a Queue state: it represents some chain. -/
def Queue.WF {α : Type _} (q : Queue α) : Prop := ∃ l, Queue.rep q l

/-! ## Generic container interface (fwd_container) -/

/-- A `fwd_container<T>&` seen through its dynamic type: the two concrete
containers of the library. -/
inductive FwdCont (α : Type _) where
  | stk (s : Stack α)
  | que (q : Queue α)

/-- `Stack::operator=(const fwd_container<T>&)`: `dynamic_cast` to
`const Stack<T>*`; a null result throws `std::bad_cast` (the spec's
`TypeMismatch`) before anything is modified; otherwise delegate to the
same-type copy assignment. -/
def Stack.assignFrom {α : Type _} (tgt : Stack α) (src : FwdCont α) :
    StOut (Stack α) :=
  match src with
  | .stk other => .ok (Stack.copyAssign tgt other)
  | .que _ => .err .typeMismatch tgt

/-- `Queue::operator=(const fwd_container<T>&)`: mirror image. -/
def Queue.assignFrom {α : Type _} (tgt : Queue α) (src : FwdCont α) :
    StOut (Queue α) :=
  match src with
  | .que other => .ok (Queue.copyAssign tgt other)
  | .stk _ => .err .typeMismatch tgt

/-! ## Cursors and iterator handles (fwd_container.h, stack.h, queue.h)

A cursor is a concrete `iterator_base` / `const_iterator_base` object: it is
tagged with the container kind it came from (`stack_iterator` carries the
discriminant `iterator_kind = 2` checked in its comparisons; the queue
cursors discriminate through `dynamic_cast`), and holds the current node
pointer, null at end of sequence.  Node addresses are abstract. -/

/-- Concrete mutable cursor: `Stack::stack_iterator` or
`Queue::queue_iterator`, with its current node pointer. -/
inductive MutCursor where
  | stackIt (current : Option Nat)
  | queueIt (current : Option Nat)
deriving DecidableEq, Repr

/-- Concrete read-only cursor: `Stack::stack_const_iterator` or
`Queue::queue_const_iterator`. -/
inductive ConstCursor where
  | stackCIt (current : Option Nat)
  | queueCIt (current : Option Nat)
deriving DecidableEq, Repr

/-- Position (current node pointer) of a mutable cursor. -/
def MutCursor.pos : MutCursor → Option Nat
  | .stackIt c => c
  | .queueIt c => c

/-- Position of a read-only cursor. -/
def ConstCursor.pos : ConstCursor → Option Nat
  | .stackCIt c => c
  | .queueCIt c => c

/-- Container kind a mutable cursor belongs to (false = Stack, true = Queue);
the discriminant checked by `get_iterator_kind()` / `dynamic_cast`. -/
def MutCursor.isQueueKind : MutCursor → Bool
  | .stackIt _ => false
  | .queueIt _ => true

/-- Container kind of a read-only cursor. -/
def ConstCursor.isQueueKind : ConstCursor → Bool
  | .stackCIt _ => false
  | .queueCIt _ => true

/-- `operator==(const iterator_base&)` of the concrete mutable cursors:
`stack_iterator` first compares kind discriminants and on a match casts and
compares `current` pointers; `queue_iterator` uses `dynamic_cast`, which
yields null (hence false) on a foreign cursor. -/
def MutCursor.eqMM : MutCursor → MutCursor → Bool
  | .stackIt c, .stackIt c2 => c = c2
  | .stackIt _, .queueIt _ => false
  | .queueIt c, .queueIt c2 => c = c2
  | .queueIt _, .stackIt _ => false

/-- `operator==(const const_iterator_base&)` of the mutable cursors. -/
def MutCursor.eqMC : MutCursor → ConstCursor → Bool
  | .stackIt c, .stackCIt c2 => c = c2
  | .stackIt _, .queueCIt _ => false
  | .queueIt c, .queueCIt c2 => c = c2
  | .queueIt _, .stackCIt _ => false

/-- `operator==(const const_iterator_base&)` of the read-only cursors. -/
def ConstCursor.eqCC : ConstCursor → ConstCursor → Bool
  | .stackCIt c, .stackCIt c2 => c = c2
  | .stackCIt _, .queueCIt _ => false
  | .queueCIt c, .queueCIt c2 => c = c2
  | .queueCIt _, .stackCIt _ => false

/-- `operator==(const iterator_base&)` of the read-only cursors. -/
def ConstCursor.eqCM : ConstCursor → MutCursor → Bool
  | .stackCIt c, .stackIt c2 => c = c2
  | .stackCIt _, .queueIt _ => false
  | .queueCIt c, .queueIt c2 => c = c2
  | .queueCIt _, .stackIt _ => false

/-- `create_const()`: project a mutable cursor to a read-only cursor at the
same node (`new stack_const_iterator(current)` / queue likewise). -/
def MutCursor.create_const : MutCursor → ConstCursor
  | .stackIt c => .stackCIt c
  | .queueIt c => .queueCIt c

/-- `clone()`: an independent copy positioned at the same node.  Under value
semantics the clone is the cursor value itself. -/
def MutCursor.clone (c : MutCursor) : MutCursor := c

/-- The value-semantic handle `fwd_container<T>::iterator`: owns a cursor
through `ptr`, which is null for a default-constructed or moved-from
handle. -/
structure IterHandle where
  ptr : Option MutCursor
deriving DecidableEq, Repr

/-- The read-only handle `fwd_container<T>::const_iterator`. -/
structure ConstIterHandle where
  ptr : Option ConstCursor
deriving DecidableEq, Repr

/-- Default constructor `iterator() : ptr(nullptr)`. -/
def IterHandle.default : IterHandle := ⟨none⟩

/-- Move constructor `iterator(iterator&&)`: steal `ptr`, null the source.
Returns (new handle, source afterwards). -/
def IterHandle.moveCtor (other : IterHandle) : IterHandle × IterHandle :=
  (⟨other.ptr⟩, ⟨none⟩)

/-- `iterator::operator==(const iterator&)`: two null handles are equal, a
null and a non-null handle are unequal, otherwise delegate to the cursors. -/
def IterHandle.beq (a b : IterHandle) : Bool :=
  match a.ptr, b.ptr with
  | none, none => true
  | none, some _ => false
  | some _, none => false
  | some c, some c2 => MutCursor.eqMM c c2

/-- `const_iterator(const iterator&)`: convert through `create_const()` when
the source holds a cursor, otherwise `ptr` stays null. -/
def ConstIterHandle.ofIter (other : IterHandle) : ConstIterHandle :=
  ⟨other.ptr.map MutCursor.create_const⟩

/-- `iterator(const const_iterator&) : ptr(nullptr)`: the body is empty, so
the constructed mutable handle always holds no cursor. -/
def IterHandle.ofConst (_ : ConstIterHandle) : IterHandle := ⟨none⟩

/-- `Stack::end()`: a handle over `new stack_iterator(nullptr)` (a cursor is
allocated; its current node pointer is null). -/
def Stack.endIter : IterHandle := ⟨some (.stackIt none)⟩

/-- `Queue::end()`. -/
def Queue.endIter : IterHandle := ⟨some (.queueIt none)⟩

/-- Decimal digit value of a character, if any. -/
def digitVal? (c : Char) : Option Nat :=
  if '0' ≤ c ∧ c ≤ '9' then some (c.toNat - '0'.toNat) else none

/-- Accumulating decimal parse of a character list. -/
def parseNatAux : List Char → Nat → Option Nat
  | [], acc => some acc
  | c :: cs, acc =>
    match digitVal? c with
    | none => none
    | some d => parseNatAux cs (acc * 10 + d)

/-- Decimal parse of a token, modelling the external stream extraction
`operator>>` for a numeric element type: fails on a token that is not a
number. -/
def parseNat (s : String) : Option Nat :=
  if s.data.isEmpty then none else parseNatAux s.data 0

/-- The container invariant of the specification, Stack side:
`count == 0` iff the chain is empty iff front access fails. -/
def Stack.specInv {α : Type _} (s : Stack α) : Prop :=
  (s.stackSize = 0 ↔ s.chain = []) ∧
  (s.chain = [] ↔ Stack.get_front s = .err .emptyContainer)

/-- The container invariant of the specification, Queue side: `count == 0`
iff the chain is empty iff front access fails; the back node's successor link
is always empty; `front == null` iff `back == null`. -/
def Queue.specInv {α : Type _} (q : Queue α) : Prop :=
  (q.queueSize = 0 ↔ q.frontNode = none) ∧
  (q.frontNode = none ↔ Queue.get_front q = .err .emptyContainer) ∧
  (q.frontNode = none ↔ q.rearNode = none) ∧
  (∀ r, q.rearNode = some r → ∃ nd, heapFind q.heap r = some nd ∧ nd.next = none)

/-! ## Helper lemmas: Stack -/

theorem Stack.pushSeq_chain {α : Type _} (vs : List α) (s : Stack α) :
    (Stack.pushSeq s vs).chain = vs.reverse ++ s.chain := by
  induction vs generalizing s with
  | nil => simp [Stack.pushSeq]
  | cons v vs ih =>
    simp [Stack.pushSeq, List.foldl_cons] at *
    rw [ih]
    simp [Stack.push]

theorem Stack.pushSeq_size {α : Type _} (vs : List α) (s : Stack α) :
    (Stack.pushSeq s vs).stackSize = s.stackSize + vs.length := by
  induction vs generalizing s with
  | nil => simp [Stack.pushSeq]
  | cons v vs ih =>
    simp [Stack.pushSeq, List.foldl_cons] at *
    rw [ih]
    simp [Stack.push]
    omega

theorem Stack.popAllAux_eq {α : Type _} :
    ∀ (chain : List α) (size : Nat),
      Stack.popAllAux chain.length ⟨chain, size⟩ = chain := by
  intro chain
  induction chain with
  | nil => intro size; simp [Stack.popAllAux]
  | cons t rest ih =>
    intro size
    simp [Stack.popAllAux, Stack.pop]
    exact ih (size - 1)

theorem Stack.readLoop_map {α : Type _} (p : String → Option α) (f : α → String)
    (vs : List α) (s : Stack α) (hp : ∀ a ∈ vs, p (f a) = some a) :
    Stack.readLoop p s (vs.map (fun a => Tok.val (f a))) = .ok (Stack.pushSeq s vs) := by
  induction vs generalizing s with
  | nil => simp [Stack.readLoop, Stack.pushSeq]
  | cons v vs ih =>
    have hv : p (f v) = some v := hp v (by simp)
    simp [Stack.readLoop, hv]
    rw [ih (s.push v) (fun a ha => hp a (by simp [ha]))]
    simp [Stack.pushSeq]

theorem Stack.push_WF {α : Type _} {s : Stack α} (h : s.WF) (v : α) :
    (s.push v).WF := by
  simp [Stack.WF, Stack.push] at *
  omega

theorem Stack.readLoop_ok_WF {α : Type _} (p : String → Option α) :
    ∀ (toks : List Tok) (s s2 : Stack α), s.WF →
      Stack.readLoop p s toks = .ok s2 → s2.WF := by
  intro toks
  induction toks with
  | nil =>
    intro s s2 hwf h
    simp [Stack.readLoop] at h
    exact h ▸ hwf
  | cons t rest ih =>
    intro s s2 hwf h
    match t with
    | Tok.fault => simp [Stack.readLoop] at h
    | Tok.val str =>
      simp [Stack.readLoop] at h
      match hpt : p str with
      | none => rw [hpt] at h; simp at h
      | some v =>
        rw [hpt] at h
        simp at h
        exact ih (s.push v) s2 (Stack.push_WF hwf v) h

/-! ## Helper lemmas: Queue representation -/

theorem chainNodes_keys {α : Type _} :
    ∀ l : List (Nat × α), (chainNodes l).map Prod.fst = l.map Prod.fst := by
  intro l
  induction l with
  | nil => rfl
  | cons x rest ih =>
    obtain ⟨a, v⟩ := x
    simp [chainNodes, ih]

theorem heapFind_of_mem {α : Type _} :
    ∀ (l : List (Nat × QNode α)) (a : Nat) (nd : QNode α),
      (l.map Prod.fst).Nodup → (a, nd) ∈ l → heapFind l a = some nd := by
  intro l
  induction l with
  | nil => intro a nd _ hm; simp at hm
  | cons x rest ih =>
    intro a nd hnd hm
    obtain ⟨b, nd2⟩ := x
    rw [List.map_cons] at hnd
    have hb : b ∉ rest.map Prod.fst := (List.nodup_cons.mp hnd).1
    have hrest : (rest.map Prod.fst).Nodup := (List.nodup_cons.mp hnd).2
    rcases List.mem_cons.mp hm with heq | htail
    · have hab : a = b := congrArg Prod.fst heq
      have hnd2 : nd = nd2 := congrArg Prod.snd heq
      subst hab
      subst hnd2
      simp [heapFind, List.find?_cons_of_pos]
    · have hba : (b == a) = false := by
        have : b ≠ a := by
          intro hba
          exact hb (hba ▸ List.mem_map_of_mem Prod.fst htail)
        simpa using this
      have hr : heapFind rest a = some nd := ih a nd hrest htail
      simp only [heapFind] at hr ⊢
      rw [List.find?_cons_of_neg _ (by simp [hba])]
      exact hr

theorem Queue.rep_empty {α : Type _} : Queue.rep (Queue.mkEmpty : Queue α) [] := by
  refine ⟨rfl, rfl, rfl, rfl, ?_, ?_⟩ <;> simp [Queue.mkEmpty]

theorem chainNodes_concat {α : Type _} :
    ∀ (l : List (Nat × α)) (a : Nat) (v : α) (r : Nat),
      (l.getLast?).map Prod.fst = some r → (l.map Prod.fst).Nodup →
      chainNodes (l ++ [(a, v)]) =
        setNext (chainNodes l) r (some a) ++ [(a, ⟨v, none⟩)] := by
  intro l
  induction l with
  | nil => intro a v r hr _; simp at hr
  | cons x rest ih =>
    intro a v r hr hnd
    obtain ⟨b, w⟩ := x
    rw [List.map_cons] at hnd
    have hbnot : b ∉ rest.map Prod.fst := (List.nodup_cons.mp hnd).1
    have hndrest : (rest.map Prod.fst).Nodup := (List.nodup_cons.mp hnd).2
    match rest with
    | [] =>
      simp [List.getLast?] at hr
      simp [chainNodes, setNext, hr]
    | y :: ys =>
      have hr2 : ((y :: ys).getLast?).map Prod.fst = some r := by
        rwa [List.getLast?_cons_cons] at hr
      have hrmem : r ∈ (y :: ys).map Prod.fst := by
        obtain ⟨pr, hpr, hpr2⟩ := Option.map_eq_some'.mp hr2
        exact hpr2 ▸ List.mem_map_of_mem Prod.fst (List.mem_of_getLast?_eq_some hpr)
      have hbr : (b = r) = False := by
        simp only [eq_iff_iff, iff_false]
        intro hbrr
        exact hbnot (hbrr ▸ hrmem)
      have ihe := ih a v r hr2 hndrest
      calc chainNodes (((b, w) :: y :: ys) ++ [(a, v)])
          = (b, ⟨w, some y.1⟩) :: chainNodes ((y :: ys) ++ [(a, v)]) := by
            simp [chainNodes, List.cons_append]
        _ = (b, ⟨w, some y.1⟩) ::
              (setNext (chainNodes (y :: ys)) r (some a) ++ [(a, ⟨v, none⟩)]) := by
            rw [ihe]
        _ = setNext (chainNodes ((b, w) :: y :: ys)) r (some a) ++ [(a, ⟨v, none⟩)] := by
            simp [chainNodes, setNext, hbr]

theorem Queue.push_rep {α : Type _} {q : Queue α} {l : List (Nat × α)}
    (h : Queue.rep q l) (v : α) :
    Queue.rep (q.push v) (l ++ [(q.nextAddr, v)]) := by
  obtain ⟨hheap, hfront, hrear, hsize, hnd, hbound⟩ := h
  match l with
  | [] =>
    have hf : q.frontNode = none := by simpa using hfront
    have hh : q.heap = [] := by simpa [chainNodes] using hheap
    have hs0 : q.queueSize = 0 := by simpa using hsize
    refine ⟨?_, ?_, ?_, ?_, ?_, ?_⟩ <;>
      simp [Queue.push, hf, hh, chainNodes, hs0]
  | x :: xs =>
    obtain ⟨pr, hpr⟩ : ∃ pr, (x :: xs).getLast? = some pr := by
      cases hg : (x :: xs).getLast? with
      | none => exact absurd (List.getLast?_eq_none_iff.mp hg) (by simp)
      | some pr => exact ⟨pr, rfl⟩
    have hprmem : pr ∈ x :: xs := List.mem_of_getLast?_eq_some hpr
    have hrlt : pr.1 < q.nextAddr := hbound pr hprmem
    have hf : q.frontNode = some x.1 := by simpa using hfront
    have hfiso : q.frontNode.isNone = false := by simp [hf]
    have hrr : q.rearNode = some pr.1 := by simp [hrear, hpr]
    have har : (q.nextAddr = pr.1) = False := by
      simp only [eq_iff_iff, iff_false]
      omega
    have hconcat := chainNodes_concat (x :: xs) q.nextAddr v pr.1 (by simp [hpr]) hnd
    refine ⟨?_, ?_, ?_, ?_, ?_, ?_⟩
    · -- heap
      simp only [Queue.push, hfiso, Bool.false_eq_true, if_false, hrr]
      simp only [hconcat, List.reverse_append, List.reverse_cons, List.reverse_nil,
        List.nil_append, List.singleton_append, setNext, List.map_cons, har, if_false,
        hheap, List.map_reverse]
    · -- frontNode
      simp [Queue.push, hfiso, hrr, hf]
    · -- rearNode
      simp only [Queue.push, hfiso, Bool.false_eq_true, if_false, hrr,
        ← List.cons_append, List.getLast?_concat, Option.map_some]
      rfl
    · -- queueSize
      simp [Queue.push, hfiso, hrr, hsize]
    · -- key nodup
      have hfresh : q.nextAddr ∉ (x :: xs).map Prod.fst := by
        intro hmem
        obtain ⟨pb, hpb, hpb2⟩ := List.mem_map.mp hmem
        have := hbound pb hpb
        omega
      simp only [List.map_append, List.map_cons, List.map_nil]
      rw [List.nodup_append]
      exact ⟨hnd, List.nodup_singleton _, by
        intro b hb hbmem
        simp at hbmem
        exact hfresh (hbmem ▸ hb)⟩
    · -- bounds
      intro pb hpb
      have hpb2 : pb ∈ (x :: xs) ++ [(q.nextAddr, v)] := by simpa using hpb
      have hlt : pb.1 < q.nextAddr + 1 := by
        rcases List.mem_append.mp hpb2 with hin | hlast
        · have := hbound pb hin
          omega
        · simp only [List.mem_singleton] at hlast
          subst hlast
          simp
      simpa [Queue.push, hfiso, hrr] using hlt

theorem Queue.pop_rep {α : Type _} {q : Queue α} {a : Nat} {v : α}
    {rest : List (Nat × α)} (h : Queue.rep q ((a, v) :: rest)) :
    ∃ q2, Queue.pop q = .ok v q2 ∧ Queue.rep q2 rest := by
  obtain ⟨hheap, hfront, hrear, hsize, hnd, hbound⟩ := h
  have hf : q.frontNode = some a := by simpa using hfront
  have hkeysnd : (q.heap.map Prod.fst).Nodup := by
    rw [hheap, List.map_reverse, chainNodes_keys]
    exact List.nodup_reverse.mpr hnd
  have hmem : (a, (⟨v, (rest.head?).map Prod.fst⟩ : QNode α)) ∈ q.heap := by
    rw [hheap]
    apply List.mem_reverse.mpr
    simp [chainNodes]
  have hfind : heapFind q.heap a = some ⟨v, (rest.head?).map Prod.fst⟩ :=
    heapFind_of_mem _ _ _ hkeysnd hmem
  have hanotin : a ∉ rest.map Prod.fst := by
    rw [List.map_cons] at hnd
    exact (List.nodup_cons.mp hnd).1
  refine ⟨⟨eraseNode q.heap a, (rest.head?).map Prod.fst,
      if ((rest.head?).map Prod.fst).isNone = true then none else q.rearNode,
      q.queueSize - 1, q.nextAddr⟩, ?_, ?_, ?_, ?_, ?_, ?_, ?_⟩
  · simp [Queue.pop, hf, hfind]
  · -- heap
    rw [hheap]
    show eraseNode ((chainNodes ((a, v) :: rest)).reverse) a = (chainNodes rest).reverse
    simp only [chainNodes, List.reverse_cons, eraseNode, List.filter_append]
    have h1 : (chainNodes rest).reverse.filter (fun pr => decide (pr.1 ≠ a)) =
        (chainNodes rest).reverse := by
      apply List.filter_eq_self.mpr
      intro pr hpr
      have : pr.1 ∈ rest.map Prod.fst := by
        rw [← chainNodes_keys]
        exact List.mem_map_of_mem Prod.fst (List.mem_reverse.mp hpr)
      simp only [decide_eq_true_eq]
      intro hpa
      exact hanotin (hpa ▸ this)
    have h2 : [((a : Nat), (⟨v, (rest.head?).map Prod.fst⟩ : QNode α))].filter
        (fun pr => decide (pr.1 ≠ a)) = [] := by simp
    rw [h1, h2, List.append_nil]
  · rfl
  · -- rearNode
    match rest with
    | [] => simp
    | y :: ys =>
      rw [hrear, List.getLast?_cons_cons]
      simp
  · -- size
    simp only [hsize, List.length_cons]
    omega
  · rw [List.map_cons] at hnd
    exact (List.nodup_cons.mp hnd).2
  · intro pr hpr
    exact hbound pr (List.mem_cons_of_mem _ hpr)

theorem Queue.pop_rep_nil {α : Type _} {q : Queue α} (h : Queue.rep q []) :
    Queue.pop q = .err .emptyContainer q := by
  obtain ⟨_, hfront, _⟩ := h
  have hf : q.frontNode = none := by simpa using hfront
  simp [Queue.pop, hf]

theorem Queue.get_front_rep_nil {α : Type _} {q : Queue α} (h : Queue.rep q []) :
    Queue.get_front q = .err .emptyContainer := by
  obtain ⟨_, hfront, _⟩ := h
  have hf : q.frontNode = none := by simpa using hfront
  simp [Queue.get_front, hf]

theorem Queue.get_front_rep_cons {α : Type _} {q : Queue α} {a : Nat} {v : α}
    {rest : List (Nat × α)} (h : Queue.rep q ((a, v) :: rest)) :
    Queue.get_front q = .ok v := by
  obtain ⟨hheap, hfront, hrear, hsize, hnd, hbound⟩ := h
  have hf : q.frontNode = some a := by simpa using hfront
  have hkeysnd : (q.heap.map Prod.fst).Nodup := by
    rw [hheap, List.map_reverse, chainNodes_keys]
    exact List.nodup_reverse.mpr hnd
  have hmem : (a, (⟨v, (rest.head?).map Prod.fst⟩ : QNode α)) ∈ q.heap := by
    rw [hheap]
    apply List.mem_reverse.mpr
    simp [chainNodes]
  have hfind : heapFind q.heap a = some ⟨v, (rest.head?).map Prod.fst⟩ :=
    heapFind_of_mem _ _ _ hkeysnd hmem
  simp [Queue.get_front, hf, hfind]

theorem walkValues_chain {α : Type _} (heap : List (Nat × QNode α)) :
    ∀ l : List (Nat × α),
      (∀ pr ∈ chainNodes l, heapFind heap pr.1 = some pr.2) →
      walkValues heap ((l.head?).map Prod.fst) l.length = l.map Prod.snd := by
  intro l
  induction l with
  | nil => intro _; simp [walkValues]
  | cons x rest ih =>
    intro hx
    obtain ⟨a, v⟩ := x
    have hfind : heapFind heap a = some ⟨v, (rest.head?).map Prod.fst⟩ :=
      hx (a, ⟨v, (rest.head?).map Prod.fst⟩) (by simp [chainNodes])
    simp only [List.head?_cons, List.length_cons, List.map_cons]
    rw [show Option.map Prod.fst (some (a, v)) = some a from rfl]
    simp only [walkValues, hfind]
    rw [ih (fun pr hpr => hx pr (by simp [chainNodes, hpr]))]

theorem Queue.toList_rep {α : Type _} {q : Queue α} {l : List (Nat × α)}
    (h : Queue.rep q l) : Queue.toList q = l.map Prod.snd := by
  obtain ⟨hheap, hfront, hrear, hsize, hnd, hbound⟩ := h
  have hkeysnd : (q.heap.map Prod.fst).Nodup := by
    rw [hheap, List.map_reverse, chainNodes_keys]
    exact List.nodup_reverse.mpr hnd
  have hx : ∀ pr ∈ chainNodes l, heapFind q.heap pr.1 = some pr.2 := by
    intro pr hpr
    obtain ⟨b, nd⟩ := pr
    exact heapFind_of_mem _ _ _ hkeysnd (by rw [hheap]; exact List.mem_reverse.mpr hpr)
  rw [Queue.toList, hfront, hsize]
  exact walkValues_chain q.heap l hx

theorem Queue.pushSeq_rep {α : Type _} (vs : List α) :
    ∀ (q : Queue α) (l : List (Nat × α)), Queue.rep q l →
      ∃ l2, Queue.rep (Queue.pushSeq q vs) l2 ∧
        l2.map Prod.snd = l.map Prod.snd ++ vs := by
  induction vs with
  | nil => intro q l h; exact ⟨l, h, by simp [Queue.pushSeq]⟩
  | cons v vs ih =>
    intro q l h
    have hpush := Queue.push_rep h v
    obtain ⟨l2, hl2, hmap⟩ := ih (q.push v) (l ++ [(q.nextAddr, v)]) hpush
    refine ⟨l2, ?_, ?_⟩
    · simpa [Queue.pushSeq] using hl2
    · rw [hmap]
      simp

theorem Queue.popAllAux_rep {α : Type _} :
    ∀ (l : List (Nat × α)) (q : Queue α), Queue.rep q l →
      Queue.popAllAux l.length q = l.map Prod.snd := by
  intro l
  induction l with
  | nil => intro q _; simp [Queue.popAllAux]
  | cons x rest ih =>
    intro q h
    obtain ⟨a, v⟩ := x
    obtain ⟨q2, hpop, hrep2⟩ := Queue.pop_rep h
    simp only [List.length_cons, Queue.popAllAux, hpop, List.map_cons]
    rw [ih q2 hrep2]

theorem Queue.popAll_rep {α : Type _} {q : Queue α} {l : List (Nat × α)}
    (h : Queue.rep q l) : Queue.popAll q = l.map Prod.snd := by
  have hsize : q.queueSize = l.length := h.2.2.2.1
  rw [Queue.popAll, hsize]
  exact Queue.popAllAux_rep l q h

theorem Queue.popK_rep {α : Type _} :
    ∀ (k : Nat) (l : List (Nat × α)) (q : Queue α), Queue.rep q l →
      k ≤ l.length → Queue.rep (Queue.popK k q) (l.drop k) := by
  intro k
  induction k with
  | zero => intro l q h _; simpa [Queue.popK] using h
  | succ k ih =>
    intro l q h hk
    match l with
    | [] => simp at hk
    | (a, v) :: rest =>
      obtain ⟨q2, hpop, hrep2⟩ := Queue.pop_rep h
      simp only [Queue.popK, hpop, List.drop_succ_cons]
      exact ih rest q2 hrep2 (by simpa using hk)

theorem Queue.clearAux_rep {α : Type _} :
    ∀ (l : List (Nat × α)) (q : Queue α), Queue.rep q l →
      Queue.rep (Queue.clearAux l.length q) [] := by
  intro l
  induction l with
  | nil => intro q h; simpa [Queue.clearAux] using h
  | cons x rest ih =>
    intro q h
    obtain ⟨a, v⟩ := x
    have hf : q.frontNode = some a := by simpa using h.2.1
    have hne : q.is_empty = false := by simp [Queue.is_empty, hf]
    obtain ⟨q2, hpop, hrep2⟩ := Queue.pop_rep h
    simp only [List.length_cons, Queue.clearAux, hne, Bool.false_eq_true, if_false, hpop]
    exact ih q2 hrep2

theorem Queue.clear_rep {α : Type _} {q : Queue α} {l : List (Nat × α)}
    (h : Queue.rep q l) : Queue.rep (Queue.clear q) [] := by
  have hsize : q.queueSize = l.length := h.2.2.2.1
  rw [Queue.clear, hsize]
  exact Queue.clearAux_rep l q h

theorem Queue.readLoopMap {α : Type _} (p : String → Option α) (f : α → String)
    (vs : List α) :
    ∀ q : Queue α, (∀ a ∈ vs, p (f a) = some a) →
      Queue.readLoop p q (vs.map (fun a => Tok.val (f a))) = .ok (Queue.pushSeq q vs) := by
  induction vs with
  | nil => intro q _; simp [Queue.readLoop, Queue.pushSeq]
  | cons v vs ih =>
    intro q hp
    have hv : p (f v) = some v := hp v (by simp)
    simp only [List.map_cons, Queue.readLoop, hv]
    rw [ih (q.push v) (fun a ha => hp a (by simp [ha]))]
    simp [Queue.pushSeq]

theorem Queue.readLoopOkWF {α : Type _} (p : String → Option α) :
    ∀ (toks : List Tok) (q q2 : Queue α), Queue.WF q →
      Queue.readLoop p q toks = .ok q2 → Queue.WF q2 := by
  intro toks
  induction toks with
  | nil =>
    intro q q2 hwf h
    simp [Queue.readLoop] at h
    exact h ▸ hwf
  | cons t rest ih =>
    intro q q2 hwf h
    match t with
    | Tok.fault => simp [Queue.readLoop] at h
    | Tok.val str =>
      simp only [Queue.readLoop] at h
      match hpt : p str with
      | none => rw [hpt] at h; simp at h
      | some v =>
        rw [hpt] at h
        simp only at h
        obtain ⟨l, hl⟩ := hwf
        exact ih (q.push v) q2 ⟨_, Queue.push_rep hl v⟩ h

theorem Queue.copyCtor_rep {α : Type _} {q : Queue α} {l : List (Nat × α)}
    (h : Queue.rep q l) :
    ∃ l2, Queue.rep (Queue.copyCtor q) l2 ∧ l2.map Prod.snd = l.map Prod.snd := by
  rw [Queue.copyCtor, Queue.toList_rep h]
  obtain ⟨l2, hl2, hmap⟩ :=
    Queue.pushSeq_rep (l.map Prod.snd) Queue.mkEmpty [] Queue.rep_empty
  exact ⟨l2, hl2, by simpa using hmap⟩

theorem Queue.copyCtor_toList {α : Type _} {q : Queue α} (h : Queue.WF q) :
    Queue.toList (Queue.copyCtor q) = Queue.toList q ∧
      (Queue.copyCtor q).queueSize = q.queueSize := by
  obtain ⟨l, hl⟩ := h
  obtain ⟨l2, hl2, hmap⟩ := Queue.copyCtor_rep hl
  constructor
  · rw [Queue.toList_rep hl2, Queue.toList_rep hl, hmap]
  · have h1 : (Queue.copyCtor q).queueSize = l2.length := hl2.2.2.2.1
    have h2 : q.queueSize = l.length := hl.2.2.2.1
    have h3 : l2.length = l.length := by
      have := congrArg List.length hmap
      simpa using this
    omega

theorem copyChainAux_some {α : Type _} :
    ∀ (l : List α) (b : Nat) (l2 : List α), copyChainAux l b = some l2 → l2 = l := by
  intro l
  induction l with
  | nil => intro b l2 h; simpa [copyChainAux] using h.symm
  | cons x xs ih =>
    intro b l2 h
    match b with
    | 0 => simp [copyChainAux] at h
    | b + 1 =>
      simp only [copyChainAux, Option.map_eq_some'] at h
      obtain ⟨l3, hl3, hxl3⟩ := h
      rw [← hxl3, ih b l3 hl3]

theorem Stack.popK_eq {α : Type _} :
    ∀ (k : Nat) (chain : List α) (size : Nat), k ≤ chain.length →
      Stack.popK k ⟨chain, size⟩ = ⟨chain.drop k, size - k⟩ := by
  intro k
  induction k with
  | zero => intro chain size _; simp [Stack.popK]
  | succ k ih =>
    intro chain size hk
    match chain with
    | [] => simp at hk
    | c :: rest =>
      simp only [Stack.popK, Stack.pop]
      rw [ih rest (size - 1) (by simpa using hk)]
      simp only [List.drop_succ_cons]
      congr 1
      omega

theorem chainNodes_last_mem {α : Type _} :
    ∀ (l : List (Nat × α)) (a : Nat) (v : α),
      l.getLast? = some (a, v) → (a, (⟨v, none⟩ : QNode α)) ∈ chainNodes l := by
  intro l
  induction l with
  | nil => intro a v h; simp at h
  | cons x rest ih =>
    intro a v h
    match rest with
    | [] =>
      simp [List.getLast?] at h
      simp [chainNodes, h]
    | y :: ys =>
      rw [List.getLast?_cons_cons] at h
      exact List.mem_cons_of_mem _ (ih a v h)

theorem Queue.popErrEq {α : Type _} {q q2 : Queue α} {e : CErr}
    (h : Queue.pop q = .err e q2) : q2 = q := by
  unfold Queue.pop at h
  match hf : q.frontNode with
  | none =>
    rw [hf] at h
    simp only [ValOut.err.injEq] at h
    exact h.2.symm
  | some f =>
    rw [hf] at h
    simp only at h
    match hfd : heapFind q.heap f with
    | none =>
      rw [hfd] at h
      simp only [ValOut.err.injEq] at h
      exact h.2.symm
    | some nd =>
      rw [hfd] at h
      simp at h

/-! ## Claim theorems -/

/-- C5: for every finite sequence of pushed values, repeatedly calling
`pop()` on a Stack returns the values in exact reverse push order (LIFO), and
repeatedly calling `pop()` on a Queue returns them in exact push order
(FIFO). -/
theorem spec_c5 {α : Type _} (vs : List α) :
    Stack.popAll (Stack.pushSeq Stack.mkEmpty vs) = vs.reverse ∧
    Queue.popAll (Queue.pushSeq Queue.mkEmpty vs) = vs := by
  constructor
  · have hchain : (Stack.pushSeq (Stack.mkEmpty : Stack α) vs).chain = vs.reverse := by
      rw [Stack.pushSeq_chain]
      simp [Stack.mkEmpty]
    have hsize : (Stack.pushSeq (Stack.mkEmpty : Stack α) vs).stackSize = vs.length := by
      rw [Stack.pushSeq_size]
      simp [Stack.mkEmpty]
    have heq : Stack.pushSeq (Stack.mkEmpty : Stack α) vs = ⟨vs.reverse, vs.length⟩ := by
      cases hps : Stack.pushSeq (Stack.mkEmpty : Stack α) vs with
      | mk c n =>
        have h1 : c = vs.reverse := by rw [← hchain, hps]
        have h2 : n = vs.length := by rw [← hsize, hps]
        rw [h1, h2]
    rw [heq, Stack.popAll]
    show Stack.popAllAux vs.length ⟨vs.reverse, vs.length⟩ = vs.reverse
    rw [show vs.length = vs.reverse.length by simp]
    exact Stack.popAllAux_eq vs.reverse vs.reverse.length
  · obtain ⟨l2, hl2, hmap⟩ := Queue.pushSeq_rep vs Queue.mkEmpty [] Queue.rep_empty
    rw [Queue.popAll_rep hl2, hmap]
    simp

/-- C6: for both containers, after `n` pushes and `k ≤ n` pops `size()`
returns `n - k`; and popping an empty container fails with `EmptyContainer`
and leaves size and contents unchanged. -/
theorem spec_c6 {α : Type _} (vs : List α) (k : Nat) (hk : k ≤ vs.length) :
    Stack.size (Stack.popK k (Stack.pushSeq Stack.mkEmpty vs)) = vs.length - k ∧
    Queue.size (Queue.popK k (Queue.pushSeq Queue.mkEmpty vs)) = vs.length - k ∧
    (∀ s : Stack α, s.is_empty = true → Stack.pop s = .err .emptyContainer s) ∧
    (∀ q : Queue α, q.is_empty = true → Queue.pop q = .err .emptyContainer q) := by
  refine ⟨?_, ?_, ?_, ?_⟩
  · have hchain : (Stack.pushSeq (Stack.mkEmpty : Stack α) vs).chain = vs.reverse := by
      rw [Stack.pushSeq_chain]
      simp [Stack.mkEmpty]
    have hsize : (Stack.pushSeq (Stack.mkEmpty : Stack α) vs).stackSize = vs.length := by
      rw [Stack.pushSeq_size]
      simp [Stack.mkEmpty]
    have heq : Stack.pushSeq (Stack.mkEmpty : Stack α) vs = ⟨vs.reverse, vs.length⟩ := by
      cases hps : Stack.pushSeq (Stack.mkEmpty : Stack α) vs with
      | mk c n =>
        have h1 : c = vs.reverse := by rw [← hchain, hps]
        have h2 : n = vs.length := by rw [← hsize, hps]
        rw [h1, h2]
    rw [heq, Stack.popK_eq k vs.reverse vs.length (by simpa using hk)]
    rfl
  · obtain ⟨l2, hl2, hmap⟩ := Queue.pushSeq_rep vs Queue.mkEmpty [] Queue.rep_empty
    have hlen : l2.length = vs.length := by
      have := congrArg List.length hmap
      simpa using this
    have hrep2 := Queue.popK_rep k l2 _ hl2 (by omega)
    have hsz : (Queue.popK k (Queue.pushSeq Queue.mkEmpty vs)).queueSize =
        (l2.drop k).length := hrep2.2.2.2.1
    rw [Queue.size, hsz, List.length_drop, hlen]
  · intro s hs
    obtain ⟨c, n⟩ := s
    match c with
    | [] => rfl
    | x :: xs => simp [Stack.is_empty] at hs
  · intro q hq
    have hf : q.frontNode = none := by
      simpa [Queue.is_empty, Option.isNone_iff_eq_none] using hq
    simp [Queue.pop, hf]

/-- C6 witness: three pushes then two pops leave size 1 on both containers,
and popping the empty containers fails with `EmptyContainer`, unchanged. -/
theorem spec_c6_witness :
    Stack.size (Stack.popK 2 (Stack.pushSeq (Stack.mkEmpty : Stack Nat) [10, 20, 30])) = 1 ∧
    Queue.size (Queue.popK 2 (Queue.pushSeq (Queue.mkEmpty : Queue Nat) [10, 20, 30])) = 1 ∧
    Stack.pop (Stack.mkEmpty : Stack Nat) = .err .emptyContainer Stack.mkEmpty ∧
    Queue.pop (Queue.mkEmpty : Queue Nat) = .err .emptyContainer Queue.mkEmpty := by
  have h := spec_c6 (α := Nat) [10, 20, 30] 2 (by decide)
  exact ⟨h.1, h.2.1, h.2.2.1 Stack.mkEmpty (by decide), h.2.2.2 Queue.mkEmpty (by decide)⟩

/-- C7: assignment through the generic `fwd_container` interface succeeds
exactly when the source is dynamically of the target's kind; a cross-kind
source fails with `TypeMismatch` and leaves the target unchanged. -/
theorem spec_c7 {α : Type _} :
    (∀ (tgt : Stack α) (q : Queue α),
      Stack.assignFrom tgt (FwdCont.que q) = .err .typeMismatch tgt) ∧
    (∀ (tgt : Queue α) (s : Stack α),
      Queue.assignFrom tgt (FwdCont.stk s) = .err .typeMismatch tgt) ∧
    (∀ tgt other : Stack α,
      Stack.assignFrom tgt (FwdCont.stk other) = .ok (Stack.copyAssign tgt other)) ∧
    (∀ tgt other : Queue α,
      Queue.assignFrom tgt (FwdCont.que other) = .ok (Queue.copyAssign tgt other)) :=
  ⟨fun _ _ => rfl, fun _ _ => rfl, fun _ _ => rfl, fun _ _ => rfl⟩

/-- C8: cursor equality between mutable and read-only cursors of the same
concrete container kind compares positions; comparison across container kinds
is false in every mutability combination, never throws (the comparison
functions are total), and in particular is false even when the underlying
node addresses coincide. -/
theorem spec_c8 :
    (∀ c c2 : Option Nat,
      MutCursor.eqMC (.stackIt c) (.stackCIt c2) = decide (c = c2) ∧
      ConstCursor.eqCM (.stackCIt c) (.stackIt c2) = decide (c = c2) ∧
      MutCursor.eqMC (.queueIt c) (.queueCIt c2) = decide (c = c2) ∧
      ConstCursor.eqCM (.queueCIt c) (.queueIt c2) = decide (c = c2)) ∧
    (∀ c c2 : Option Nat,
      MutCursor.eqMM (.stackIt c) (.queueIt c2) = false ∧
      MutCursor.eqMM (.queueIt c) (.stackIt c2) = false ∧
      MutCursor.eqMC (.stackIt c) (.queueCIt c2) = false ∧
      MutCursor.eqMC (.queueIt c) (.stackCIt c2) = false ∧
      ConstCursor.eqCM (.stackCIt c) (.queueIt c2) = false ∧
      ConstCursor.eqCM (.queueCIt c) (.stackIt c2) = false ∧
      ConstCursor.eqCC (.stackCIt c) (.queueCIt c2) = false ∧
      ConstCursor.eqCC (.queueCIt c) (.stackCIt c2) = false) :=
  ⟨fun _ _ => ⟨rfl, rfl, rfl, rfl⟩,
   fun _ _ => ⟨rfl, rfl, rfl, rfl, rfl, rfl, rfl, rfl⟩⟩

/-- C10: a default-constructed handle and a moved-from handle hold no cursor;
two empty handles compare equal; an empty handle is unequal to every handle
holding a cursor, in particular to the containers' `end()` handles (whose
cursors exist but sit at the null position). -/
theorem spec_c10 :
    IterHandle.default.ptr = none ∧
    (∀ h : IterHandle, (IterHandle.moveCtor h).2.ptr = none) ∧
    IterHandle.beq ⟨none⟩ ⟨none⟩ = true ∧
    (∀ c : MutCursor,
      IterHandle.beq ⟨none⟩ ⟨some c⟩ = false ∧
      IterHandle.beq ⟨some c⟩ ⟨none⟩ = false) ∧
    IterHandle.beq ⟨none⟩ Stack.endIter = false ∧
    IterHandle.beq ⟨none⟩ Queue.endIter = false :=
  ⟨rfl, fun _ => rfl, rfl, fun _ => ⟨rfl, rfl⟩, rfl, rfl⟩

/-- C3 counterexample: the claim says mutable-from-read-only construction is
rejected and never silently yields a degenerate mutable handle, and that
read-only-from-mutable conversion always yields a valid non-null cursor.  In
the code, `iterator(const const_iterator&)` silently builds a handle with a
null cursor even from a read-only handle that holds a valid cursor, and
converting an empty mutable handle yields a null read-only cursor. -/
theorem spec_c3_counterexample :
    (IterHandle.ofConst ⟨some (ConstCursor.stackCIt (some 0))⟩).ptr = none ∧
    (ConstIterHandle.ofIter ⟨none⟩).ptr = none :=
  ⟨rfl, rfl⟩

/-- C3 (amended): converting a mutable handle that holds a cursor to
read-only goes through `create_const()` and yields a cursor at the same
position and of the same kind; converting an empty mutable handle yields an
empty read-only handle (not a valid non-null cursor); constructing a mutable
handle from a read-only handle is not rejected but compiles and silently
yields an empty mutable handle (`ptr == nullptr`), never a usable cursor.
(Assignment of a mutable handle from a read-only one, by contrast, really is
rejected: the body of `iterator::operator=(const const_iterator&)` compares
`this != &other` across unrelated pointer types, which is ill-formed when the
member is instantiated, so any attempted assignment fails to compile; that
operator is therefore deliberately not modelled.) -/
theorem spec_c3 :
    (∀ c : MutCursor,
      (ConstIterHandle.ofIter ⟨some c⟩).ptr = some (MutCursor.create_const c) ∧
      (MutCursor.create_const c).pos = c.pos ∧
      (MutCursor.create_const c).isQueueKind = c.isQueueKind) ∧
    (ConstIterHandle.ofIter ⟨none⟩).ptr = none ∧
    (∀ ch : ConstIterHandle, (IterHandle.ofConst ch).ptr = none) := by
  refine ⟨?_, rfl, fun _ => rfl⟩
  intro c
  match c with
  | .stackIt cc => exact ⟨rfl, rfl, rfl⟩
  | .queueIt cc => exact ⟨rfl, rfl, rfl⟩

/-- C2 counterexample: copying a two-element stack with only one node
allocation available fails with `ResourceExhaustion` and a cleaned chain, but
the state at the throw reports size 2 (the source's size), not 0: the
`stackSize` field is set in the initialiser list and never reset in the
catch block. -/
theorem spec_c2_counterexample :
    Stack.copyCtor (⟨[1, 2], 2⟩ : Stack Nat) 1 =
      .err .resourceExhaustion ⟨[], 2⟩ ∧
    ((⟨[], 2⟩ : Stack Nat)).stackSize ≠ 0 := by
  exact ⟨rfl, by decide⟩

/-- C2 (amended): if node allocation fails partway through Stack copy
construction, the partially built chain is cleaned up (no nodes stay linked)
and a `ResourceExhaustion` error is surfaced, but the size field at the point
the exception propagates holds the source's size, not 0 (in C++ the throwing
constructor leaves no object behind, so the field is never observable). -/
theorem spec_c2 {α : Type _} (other : Stack α) (budget : Nat) (e : CErr)
    (st : Stack α) (h : Stack.copyCtor other budget = .err e st) :
    e = .resourceExhaustion ∧ st.chain = [] ∧ st.stackSize = other.stackSize := by
  unfold Stack.copyCtor at h
  by_cases hemp : other.chain.isEmpty
  · rw [if_pos hemp] at h
    simp at h
  · rw [if_neg hemp] at h
    match hcc : copyChainAux other.chain budget with
    | some newChain => rw [hcc] at h; simp at h
    | none =>
      rw [hcc] at h
      simp only [StOut.err.injEq] at h
      refine ⟨h.1.symm, ?_, ?_⟩
      · rw [← h.2]
      · rw [← h.2]

/-- C2 witness: the amended statement at the concrete failing copy. -/
theorem spec_c2_witness :
    CErr.resourceExhaustion = CErr.resourceExhaustion ∧
    (⟨[], 2⟩ : Stack Nat).chain = [] ∧
    (⟨[], 2⟩ : Stack Nat).stackSize = (⟨[1, 2], 2⟩ : Stack Nat).stackSize :=
  spec_c2 (⟨[1, 2], 2⟩ : Stack Nat) 1 .resourceExhaustion ⟨[], 2⟩ rfl

theorem Stack.pushSeq_mkEmpty {α : Type _} (vs : List α) :
    Stack.pushSeq (Stack.mkEmpty : Stack α) vs = ⟨vs.reverse, vs.length⟩ := by
  have hchain : (Stack.pushSeq (Stack.mkEmpty : Stack α) vs).chain = vs.reverse := by
    rw [Stack.pushSeq_chain]
    simp [Stack.mkEmpty]
  have hsize : (Stack.pushSeq (Stack.mkEmpty : Stack α) vs).stackSize = vs.length := by
    rw [Stack.pushSeq_size]
    simp [Stack.mkEmpty]
  cases hps : Stack.pushSeq (Stack.mkEmpty : Stack α) vs with
  | mk c n =>
    have h1 : c = vs.reverse := by rw [← hchain, hps]
    have h2 : n = vs.length := by rw [← hsize, hps]
    rw [h1, h2]

/-- C1 counterexample: the claim says serialize-then-deserialize into an
empty container of the same kind preserves the iteration sequence for both
kinds.  For a Stack it does not: a stack iterating 1,2 serializes to the
tokens 1 2, and reading those into an empty Stack pushes each one on top, so
the result iterates 2,1 — the reverse. -/
theorem spec_c1_counterexample :
    Stack.read parseNat Stack.mkEmpty
        ((Stack.print Nat.repr (⟨[1, 2], 2⟩ : Stack Nat)).map Tok.val) =
      .ok ⟨[2, 1], 2⟩ ∧
    Stack.toList (⟨[2, 1], 2⟩ : Stack Nat) ≠ Stack.toList (⟨[1, 2], 2⟩ : Stack Nat) := by
  constructor
  · decide
  · decide

/-- C1 (amended): serialize-then-deserialize into an empty container of the
same kind round-trips the Queue to the same front-to-back sequence, and
round-trips the Stack to the reversed sequence (each token is pushed on top,
so iteration order flips — consistently with the spec's own scenario that
deserializing the tokens 1 2 3 into an empty Stack iterates 3,2,1).
Rendering and parsing of single elements are external per-`T` routines,
assumed to round-trip on the serialized elements. -/
theorem spec_c1 {α : Type _} (f : α → String) (p : String → Option α)
    (s : Stack α) (hs : ∀ a ∈ s.chain, p (f a) = some a)
    (q : Queue α) (hq : ∀ a ∈ Queue.toList q, p (f a) = some a) :
    Stack.read p Stack.mkEmpty ((Stack.print f s).map Tok.val) =
      .ok ⟨(Stack.toList s).reverse, s.chain.length⟩ ∧
    ∃ q2, Queue.read p Queue.mkEmpty ((Queue.print f q).map Tok.val) = .ok q2 ∧
      Queue.toList q2 = Queue.toList q := by
  constructor
  · have hmap : (Stack.print f s).map Tok.val =
        s.chain.map (fun a => Tok.val (f a)) := by
      simp [Stack.print, List.map_map]
    have hloop := Stack.readLoop_map p f s.chain Stack.mkEmpty hs
    unfold Stack.read
    rw [hmap, hloop, Stack.pushSeq_mkEmpty]
    rfl
  · have hmap : (Queue.print f q).map Tok.val =
        (Queue.toList q).map (fun a => Tok.val (f a)) := by
      simp [Queue.print, List.map_map]
    have hloop := Queue.readLoopMap p f (Queue.toList q) Queue.mkEmpty hq
    unfold Queue.read
    rw [hmap, hloop]
    obtain ⟨l2, hl2, hmap2⟩ :=
      Queue.pushSeq_rep (Queue.toList q) Queue.mkEmpty [] Queue.rep_empty
    refine ⟨_, rfl, ?_⟩
    rw [Queue.toList_rep hl2, hmap2]
    simp

/-- C1 witness: the amended statement at concrete containers. -/
theorem spec_c1_witness :
    Stack.read parseNat Stack.mkEmpty
        ((Stack.print Nat.repr (⟨[1, 2], 2⟩ : Stack Nat)).map Tok.val) =
      .ok ⟨[2, 1], 2⟩ ∧
    ∃ q2, Queue.read parseNat Queue.mkEmpty
        ((Queue.print Nat.repr
          (⟨[(1, ⟨6, none⟩), (0, ⟨5, some 1⟩)], some 0, some 1, 2, 2⟩ : Queue Nat)).map
            Tok.val) = .ok q2 ∧
      Queue.toList q2 =
        Queue.toList
          (⟨[(1, ⟨6, none⟩), (0, ⟨5, some 1⟩)], some 0, some 1, 2, 2⟩ : Queue Nat) := by
  have h := spec_c1 Nat.repr parseNat (⟨[1, 2], 2⟩ : Stack Nat) (by decide)
    (⟨[(1, ⟨6, none⟩), (0, ⟨5, some 1⟩)], some 0, some 1, 2, 2⟩ : Queue Nat) (by decide)
  exact h

/-- C4: a deserialization that fails mid-read (unparsable token or stream
fault) propagates the error and leaves the container as it was before the
read: the Stack is restored to the very same state; the Queue is restored
from the backup deep copy, whose observable contents and size equal the
original's (its nodes are fresh allocations). -/
theorem spec_c4 {α : Type _} (p : String → Option α) :
    (∀ (s st : Stack α) (toks : List Tok) (e : CErr),
      Stack.read p s toks = .err e st → st = s) ∧
    (∀ (q st : Queue α) (toks : List Tok) (e : CErr), Queue.WF q →
      Queue.read p q toks = .err e st →
        Queue.toList st = Queue.toList q ∧ st.queueSize = q.queueSize ∧
          Queue.WF st) := by
  constructor
  · intro s st toks e h
    unfold Stack.read at h
    match hl : Stack.readLoop p s toks with
    | .ok s2 => rw [hl] at h; simp at h
    | .err e2 s2 =>
      rw [hl] at h
      simp only [StOut.err.injEq] at h
      exact h.2.symm
  · intro q st toks e hwf h
    unfold Queue.read at h
    match hl : Queue.readLoop p q toks with
    | .ok q2 => rw [hl] at h; simp at h
    | .err e2 q2 =>
      rw [hl] at h
      simp only [StOut.err.injEq] at h
      obtain ⟨l, hlrep⟩ := hwf
      obtain ⟨l2, hl2, hm2⟩ := Queue.copyCtor_rep hlrep
      have hst : st = Queue.copyCtor q := h.2.symm
      subst hst
      refine ⟨?_, ?_, ⟨l2, hl2⟩⟩
      · rw [Queue.toList_rep hl2, Queue.toList_rep hlrep, hm2]
      · have h1 : (Queue.copyCtor q).queueSize = l2.length := hl2.2.2.2.1
        have h2 : q.queueSize = l.length := hlrep.2.2.2.1
        have h3 := congrArg List.length hm2
        simp only [List.length_map] at h3
        omega

/-- C4 witness: concrete failing reads (a valid token followed by an
unparsable one) roll both containers back. -/
theorem spec_c4_witness :
    (⟨[0], 1⟩ : Stack Nat) = ⟨[0], 1⟩ ∧
    (Queue.toList (Queue.copyCtor (⟨[(0, ⟨7, none⟩)], some 0, some 0, 1, 1⟩ : Queue Nat)) =
        Queue.toList (⟨[(0, ⟨7, none⟩)], some 0, some 0, 1, 1⟩ : Queue Nat) ∧
      (Queue.copyCtor (⟨[(0, ⟨7, none⟩)], some 0, some 0, 1, 1⟩ : Queue Nat)).queueSize =
        (⟨[(0, ⟨7, none⟩)], some 0, some 0, 1, 1⟩ : Queue Nat).queueSize ∧
      Queue.WF (Queue.copyCtor (⟨[(0, ⟨7, none⟩)], some 0, some 0, 1, 1⟩ : Queue Nat))) := by
  constructor
  · exact (spec_c4 parseNat).1 ⟨[0], 1⟩ ⟨[0], 1⟩ [Tok.val "1", Tok.val "x"]
      .parseFailure (by decide)
  · exact (spec_c4 parseNat).2 (⟨[(0, ⟨7, none⟩)], some 0, some 0, 1, 1⟩ : Queue Nat)
      (Queue.copyCtor (⟨[(0, ⟨7, none⟩)], some 0, some 0, 1, 1⟩ : Queue Nat))
      [Tok.val "1", Tok.val "x"] .parseFailure ⟨[(0, 7)], by unfold Queue.rep; decide⟩
      (by decide)

theorem Stack.WF_specInv {α : Type _} (s : Stack α) (h : s.WF) : s.specInv := by
  obtain ⟨c, n⟩ := s
  simp only [Stack.WF] at h
  subst h
  constructor
  · exact List.length_eq_zero
  · match c with
    | [] => simp [Stack.get_front]
    | x :: xs => simp [Stack.get_front]

theorem Queue.repWF_specInv {α : Type _} (q : Queue α) (h : q.WF) : q.specInv := by
  obtain ⟨l, hl⟩ := h
  have hfront : q.frontNode = (l.head?).map Prod.fst := hl.2.1
  have hrear : q.rearNode = (l.getLast?).map Prod.fst := hl.2.2.1
  have hsize : q.queueSize = l.length := hl.2.2.2.1
  match l with
  | [] =>
    have hgf := Queue.get_front_rep_nil hl
    refine ⟨?_, ?_, ?_, ?_⟩
    · simp [hsize, hfront]
    · simp [hfront, hgf]
    · simp [hfront, hrear]
    · intro r hr
      rw [hrear] at hr
      simp at hr
  | (a, v) :: rest =>
    obtain ⟨pr, hpr⟩ : ∃ pr, ((a, v) :: rest).getLast? = some pr := by
      cases hg : ((a, v) :: rest).getLast? with
      | none => exact absurd (List.getLast?_eq_none_iff.mp hg) (by simp)
      | some pr => exact ⟨pr, rfl⟩
    have hgf := Queue.get_front_rep_cons hl
    have hkeysnd : (q.heap.map Prod.fst).Nodup := by
      rw [hl.1, List.map_reverse, chainNodes_keys]
      exact List.nodup_reverse.mpr hl.2.2.2.2.1
    refine ⟨?_, ?_, ?_, ?_⟩
    · simp [hsize, hfront]
    · simp [hfront, hgf]
    · simp [hfront, hrear, hpr]
    · intro r hr
      rw [hrear, hpr] at hr
      have hmem : (pr.1, (⟨pr.2, none⟩ : QNode α)) ∈ chainNodes ((a, v) :: rest) :=
        chainNodes_last_mem _ pr.1 pr.2 (by simpa using hpr)
      have hfind : heapFind q.heap pr.1 = some ⟨pr.2, none⟩ :=
        heapFind_of_mem _ _ _ hkeysnd (by rw [hl.1]; exact List.mem_reverse.mpr hmem)
      have hrr : r = pr.1 := by simpa using hr.symm
      exact ⟨⟨pr.2, none⟩, hrr ▸ hfind, rfl⟩

theorem Stack.pop_ok_WF {α : Type _} {s s2 : Stack α} {v : α} (h : s.WF)
    (hp : Stack.pop s = .ok v s2) : s2.WF := by
  obtain ⟨c, n⟩ := s
  match c with
  | [] => simp [Stack.pop] at hp
  | x :: xs =>
    simp only [Stack.pop, ValOut.ok.injEq] at hp
    simp only [Stack.WF] at h ⊢
    rw [← hp.2]
    simp at h ⊢
    omega

theorem Stack.pop_err_eq {α : Type _} {s s2 : Stack α} {e : CErr}
    (h : Stack.pop s = .err e s2) : s2 = s := by
  obtain ⟨c, n⟩ := s
  match c with
  | [] =>
    simp only [Stack.pop, StOut.err.injEq] at h
    simp only [Stack.pop, ValOut.err.injEq] at h
    exact h.2.symm
  | x :: xs => simp [Stack.pop] at h

theorem Stack.clear_WF {α : Type _} {s : Stack α} (h : s.WF) : (Stack.clear s).WF := by
  simp only [Stack.WF, Stack.clear, List.length_nil] at h ⊢
  omega

theorem Stack.copyCtor_ok_WF {α : Type _} {other st : Stack α} {budget : Nat}
    (h : other.WF) (hc : Stack.copyCtor other budget = .ok st) : st.WF := by
  unfold Stack.copyCtor at hc
  by_cases hemp : other.chain.isEmpty
  · rw [if_pos hemp] at hc
    simp only [StOut.ok.injEq] at hc
    have hnil : other.chain = [] := by simpa using hemp
    simp only [Stack.WF] at h ⊢
    rw [← hc]
    simp [h, hnil]
  · rw [if_neg hemp] at hc
    match hcc : copyChainAux other.chain budget with
    | none => rw [hcc] at hc; simp at hc
    | some newChain =>
      rw [hcc] at hc
      simp only [StOut.ok.injEq] at hc
      have heq : newChain = other.chain := copyChainAux_some _ _ _ hcc
      simp only [Stack.WF] at h ⊢
      rw [← hc]
      simp [heq, h]

theorem Queue.popOkWF {α : Type _} {q q2 : Queue α} {v : α} (h : q.WF)
    (hp : Queue.pop q = .ok v q2) : q2.WF := by
  obtain ⟨l, hl⟩ := h
  match l with
  | [] =>
    rw [Queue.pop_rep_nil hl] at hp
    simp at hp
  | (a, w) :: rest =>
    obtain ⟨q3, hpop, hrep⟩ := Queue.pop_rep hl
    rw [hpop] at hp
    simp only [ValOut.ok.injEq] at hp
    exact ⟨rest, hp.2 ▸ hrep⟩

theorem Queue.clearPreservesWF {α : Type _} {q : Queue α} (h : q.WF) : (Queue.clear q).WF := by
  obtain ⟨l, hl⟩ := h
  exact ⟨[], Queue.clear_rep hl⟩

theorem Queue.copyCtor_WF {α : Type _} (q : Queue α) : (Queue.copyCtor q).WF := by
  obtain ⟨l2, hl2, _⟩ :=
    Queue.pushSeq_rep (Queue.toList q) Queue.mkEmpty [] Queue.rep_empty
  exact ⟨l2, hl2⟩

/-- C9: every operation — construction, push, pop, clear, copy, move,
deserialization — preserves well-formedness, and a well-formed container
satisfies the container invariant of the specification: `count == 0` iff the
chain is empty iff front access fails, and for the Queue additionally that
the back node's successor link is always empty and `front == null` iff
`back == null`.  Failing pops and failing reads leave a well-formed state
behind as well. -/
theorem spec_c9 {α : Type _} :
    (∀ q : Queue α, Queue.WF q → Queue.specInv q) ∧
    (∀ s : Stack α, Stack.WF s → Stack.specInv s) ∧
    Stack.WF (Stack.mkEmpty : Stack α) ∧
    Queue.WF (Queue.mkEmpty : Queue α) ∧
    (∀ (s : Stack α) (v : α), s.WF → (s.push v).WF) ∧
    (∀ (q : Queue α) (v : α), q.WF → (q.push v).WF) ∧
    (∀ (s s2 : Stack α) (v : α), s.WF → Stack.pop s = .ok v s2 → s2.WF) ∧
    (∀ (s s2 : Stack α) (e : CErr), Stack.pop s = .err e s2 → s2 = s) ∧
    (∀ (q q2 : Queue α) (v : α), q.WF → Queue.pop q = .ok v q2 → q2.WF) ∧
    (∀ (q q2 : Queue α) (e : CErr), Queue.pop q = .err e q2 → q2 = q) ∧
    (∀ s : Stack α, s.WF → (Stack.clear s).WF) ∧
    (∀ q : Queue α, q.WF → (Queue.clear q).WF) ∧
    (∀ (other st : Stack α) (budget : Nat), other.WF →
      Stack.copyCtor other budget = .ok st → st.WF) ∧
    (∀ q : Queue α, (Queue.copyCtor q).WF) ∧
    (∀ other : Stack α, other.WF →
      (Stack.moveCtor other).1.WF ∧ (Stack.moveCtor other).2.WF) ∧
    (∀ other : Queue α, other.WF →
      (Queue.moveCtor other).1.WF ∧ (Queue.moveCtor other).2.WF) ∧
    (∀ (p : String → Option α) (s s2 : Stack α) (toks : List Tok),
      s.WF → Stack.read p s toks = .ok s2 → s2.WF) ∧
    (∀ (p : String → Option α) (s s2 : Stack α) (toks : List Tok) (e : CErr),
      s.WF → Stack.read p s toks = .err e s2 → s2.WF) ∧
    (∀ (p : String → Option α) (q q2 : Queue α) (toks : List Tok),
      q.WF → Queue.read p q toks = .ok q2 → q2.WF) ∧
    (∀ (p : String → Option α) (q q2 : Queue α) (toks : List Tok) (e : CErr),
      Queue.read p q toks = .err e q2 → q2.WF) := by
  refine ⟨Queue.repWF_specInv, Stack.WF_specInv, rfl, ⟨[], Queue.rep_empty⟩,
    fun s v h => Stack.push_WF h v,
    fun q v h => h.elim fun l hl => ⟨_, Queue.push_rep hl v⟩,
    fun s s2 v h hp => Stack.pop_ok_WF h hp,
    fun s s2 e h => Stack.pop_err_eq h,
    fun q q2 v h hp => Queue.popOkWF h hp,
    fun q q2 e h => Queue.popErrEq h,
    fun s h => Stack.clear_WF h,
    fun q h => Queue.clearPreservesWF h,
    fun other st budget h hc => Stack.copyCtor_ok_WF h hc,
    Queue.copyCtor_WF,
    fun other h => ⟨h, rfl⟩,
    ?_, ?_, ?_, ?_, ?_⟩
  · intro other h
    obtain ⟨l, hl⟩ := h
    exact ⟨⟨l, hl⟩, ⟨[], Queue.rep_empty⟩⟩
  · intro p s s2 toks h hr
    unfold Stack.read at hr
    match hl : Stack.readLoop p s toks with
    | .ok s3 =>
      rw [hl] at hr
      simp only [StOut.ok.injEq] at hr
      exact hr ▸ Stack.readLoop_ok_WF p toks s s3 h hl
    | .err e2 s3 => rw [hl] at hr; simp at hr
  · intro p s s2 toks e h hr
    unfold Stack.read at hr
    match hl : Stack.readLoop p s toks with
    | .ok s3 => rw [hl] at hr; simp at hr
    | .err e2 s3 =>
      rw [hl] at hr
      simp only [StOut.err.injEq] at hr
      exact hr.2 ▸ h
  · intro p q q2 toks h hr
    unfold Queue.read at hr
    match hl : Queue.readLoop p q toks with
    | .ok q3 =>
      rw [hl] at hr
      simp only [StOut.ok.injEq] at hr
      exact hr ▸ Queue.readLoopOkWF p toks q q3 h hl
    | .err e2 q3 => rw [hl] at hr; simp at hr
  · intro p q q2 toks e hr
    unfold Queue.read at hr
    match hl : Queue.readLoop p q toks with
    | .ok q3 => rw [hl] at hr; simp at hr
    | .err e2 q3 =>
      rw [hl] at hr
      simp only [StOut.err.injEq] at hr
      exact hr.2 ▸ Queue.copyCtor_WF q

/-- C9 witness: the invariant read off a concrete well-formed one-element
queue, push preserving well-formedness at a concrete queue, and clear
preserving it at a concrete stack. -/
theorem spec_c9_witness :
    Queue.specInv (⟨[(0, ⟨7, none⟩)], some 0, some 0, 1, 1⟩ : Queue Nat) ∧
    Queue.WF (Queue.push (Queue.mkEmpty : Queue Nat) 5) ∧
    Stack.WF (Stack.clear (⟨[9], 1⟩ : Stack Nat)) := by
  obtain ⟨h1, h2, h3, h4, h5, h6, h7, h8, h9, h10, h11, h12, h13, h14, h15,
    h16, h17, h18, h19, h20⟩ := spec_c9 (α := Nat)
  refine ⟨?_, ?_, ?_⟩
  · exact h1 _ ⟨[(0, 7)], by unfold Queue.rep; decide⟩
  · exact h6 Queue.mkEmpty 5 ⟨[], by unfold Queue.rep; decide⟩
  · exact h11 ⟨[9], 1⟩ rfl
